import Mathlib

/-!
# JIT-compiled expression evaluator: code generator, compilation driver, loader

A shallow embedding of `main.c` (`reflect`, `generate`, `main`) and `jitc.c`
(`jitc_compile`, `jitc_open`, `jitc_close`, `jitc_lookup`).

* A `double` is a value of an arbitrary carrier `D` with the operations of
  `DoubleOps D`; nothing is assumed about rounding.  `exactOps` is the instance
  in which a finite double is its exact rational value.
* A `struct parser_dag *` is a `parser_dag D`: `NULL`, or a node with its two
  children.  `reflect` never compares pointers and keeps no table of visited
  nodes, so a node with several parents is the same subterm occurring once per
  path that reaches it.
* The text written to the file is a list of `Stmt`/`Line`, one per `fprintf`
  call, each constructor standing for one format string (`Stmt.text`,
  `Line.text` give the characters).
* Dereferencing `NULL` and `EXIT` end the run; the embedding returns what was
  written before together with the reason (`Halt`).  "Written" means passed to
  `fprintf`, which is taken to succeed.
* `main` is its sequence of calls (`Event`) and the way the run ends, as a
  function of what the parser, the file system, the process facility and the
  loader answer (`World`).
-/

namespace JitEval

/-! ## Doubles and the `%f` conversion -/

/-- The characters `printf` writes for `%f` applied to a finite double: an
optional minus sign, the integer digits, a point and exactly six fraction
digits (`frac` is the number those six digits spell). -/
structure FLit where
  neg : Bool
  whole : Nat
  frac : Nat
deriving DecidableEq

/-- Six decimal digits of `n`, most significant first, padded with zeros. -/
def pad6 (n : Nat) : String :=
  String.mk ((List.range 6).reverse.map fun k => Nat.digitChar (n / 10 ^ k % 10))

/-- The text of a `%f` constant. -/
def FLit.text (l : FLit) : String :=
  (if l.neg then "-" else "") ++ toString l.whole ++ "." ++ pad6 l.frac

/-- The rational number a `%f` constant denotes when read as a decimal. -/
def FLit.value (l : FLit) : ℚ :=
  (if l.neg then -1 else 1) * ((l.whole : ℚ) + (l.frac : ℚ) / 10 ^ 6)

/-- What the generated C program needs of `double`: the four operators and
unary minus, the constant `0.0`, the truth value of a double used as the
condition of `?:` (it compares unequal to zero), the `%f` conversion of
`printf`, and the value the C compiler gives the text of a constant. -/
structure DoubleOps (D : Type) where
  add : D → D → D
  sub : D → D → D
  mul : D → D → D
  div : D → D → D
  neg : D → D
  zero : D
  nonzero : D → Bool
  printF : D → FLit
  readLit : FLit → D

/-- Nearest integer, ties to the even neighbour. -/
def roundHalfEven (q : ℚ) : Int :=
  let f := ⌊q⌋
  let r := q - f
  if r < 1 / 2 then f else if 1 / 2 < r then f + 1 else if f % 2 = 0 then f else f + 1

/-- The `%f` conversion of a finite double given by its exact value: the value
is rounded to six decimal places. -/
def printF (x : ℚ) : FLit :=
  let m := if x < 0 then -x else x
  let n := (roundHalfEven (m * 10 ^ 6)).toNat
  { neg := decide (x < 0), whole := n / 10 ^ 6, frac := n % 10 ^ 6 }

/-- Doubles as exact rationals: exact arithmetic, `%f` as `printf` does it, and a
constant read as the decimal it spells. -/
def exactOps : DoubleOps ℚ where
  add := fun a b => a + b
  sub := fun a b => a - b
  mul := fun a b => a * b
  div := fun a b => a / b
  neg := fun a => -a
  zero := 0
  nonzero := fun a => decide (a ≠ 0)
  printF := printF
  readLit := FLit.value

/-! ## The expression DAG (`parser.h`) -/

/-- Modelled from the spec: `enum parser_dag_op` is declared in `parser.h`, which
is not among the sources.  The six operator kinds `reflect` tests for, and
`unknown` for any other value the field may hold. -/
inductive parser_dag_op where
  | PARSER_DAG_VAL
  | PARSER_DAG_NEG
  | PARSER_DAG_MUL
  | PARSER_DAG_DIV
  | PARSER_DAG_ADD
  | PARSER_DAG_SUB
  | unknown (tag : Nat)
deriving DecidableEq

open parser_dag_op

/-- Modelled from the spec: `struct parser_dag` is declared in `parser.h`, which
is not among the sources.  The fields are the ones `reflect` reads: `id`
(an `int` printed with `%d`, taken non-negative so that `t%d` is an
identifier), `op`, `val`, `left`, `right`.  `NULL` is the null pointer. -/
inductive parser_dag (D : Type) where
  | NULL : parser_dag D
  | node (id : Nat) (op : parser_dag_op) (val : D) (left right : parser_dag D) : parser_dag D

namespace parser_dag

variable {D : Type}

/-- The value of `p->id`, when `p` is not `NULL`. -/
def id? : parser_dag D → Option Nat
  | NULL => none
  | node id _ _ _ _ => some id

/-- Whether the pointer is `NULL`. -/
def isNull : parser_dag D → Bool
  | NULL => true
  | node _ _ _ _ _ => false

end parser_dag

/-! ## Generated text -/

/-- One slot definition, as written by one `fprintf` call of `reflect`; the
fields are the arguments in the order of the call. -/
inductive Stmt (D : Type) where
  /-- Format `"double t%d = %f;\n"` -/
  | val (id : Nat) (v : D)
  /-- Format `"double t%d = - t%d;\n"` -/
  | neg (id a : Nat)
  /-- Format `"double t%d = t%d * t%d;\n"` -/
  | mul (id a b : Nat)
  /-- Format `"double t%d = t%d ? (t%d / t%d) : 0.0;\n"` -/
  | div (id c a b : Nat)
  /-- Format `"double t%d = t%d + t%d;\n"` -/
  | add (id a b : Nat)
  /-- Format `"double t%d = t%d - t%d;\n"` -/
  | sub (id a b : Nat)

/-- The slot name `t%d`. -/
def slotName (i : Nat) : String := "t" ++ toString i

/-- The characters of a slot definition. -/
def Stmt.text {D : Type} (A : DoubleOps D) : Stmt D → String
  | .val id v => "double " ++ slotName id ++ " = " ++ (A.printF v).text ++ ";\n"
  | .neg id a => "double " ++ slotName id ++ " = - " ++ slotName a ++ ";\n"
  | .mul id a b => "double " ++ slotName id ++ " = " ++ slotName a ++ " * " ++ slotName b ++ ";\n"
  | .div id c a b =>
      "double " ++ slotName id ++ " = " ++ slotName c ++ " ? (" ++ slotName a ++ " / "
        ++ slotName b ++ ") : 0.0;\n"
  | .add id a b => "double " ++ slotName id ++ " = " ++ slotName a ++ " + " ++ slotName b ++ ";\n"
  | .sub id a b => "double " ++ slotName id ++ " = " ++ slotName a ++ " - " ++ slotName b ++ ";\n"

/-- The slot a statement defines. -/
def Stmt.target {D : Type} : Stmt D → Nat
  | .val id _ => id
  | .neg id _ => id
  | .mul id _ _ => id
  | .div id _ _ _ => id
  | .add id _ _ => id
  | .sub id _ _ => id

/-- Why a run of the generator (or of `main`) ends without returning. -/
inductive Halt where
  /-- The macro `EXIT("software")`: trace, `assert(0)`, `exit(-1)`. -/
  | exitSoftware
  /-- A member of a `NULL` pointer was read. -/
  | nullDeref
deriving DecidableEq

/-! ## `reflect` and `generate` (`main.c`) -/

/-- The `if`/`else if` chain of `reflect` for one node, after both recursive
calls: the statement written, or the reason the run ends. -/
def emitNode {D : Type} (id : Nat) (op : parser_dag_op) (val : D)
    (left right : parser_dag D) : Except Halt (Stmt D) :=
  match op with
  | PARSER_DAG_VAL => .ok (.val id val)
  | PARSER_DAG_NEG =>
      match right.id? with
      | some r => .ok (.neg id r)
      | none => .error .nullDeref
  | PARSER_DAG_MUL =>
      match left.id?, right.id? with
      | some l, some r => .ok (.mul id l r)
      | _, _ => .error .nullDeref
  | PARSER_DAG_DIV =>
      match left.id?, right.id? with
      | some l, some r => .ok (.div id r l r)
      | _, _ => .error .nullDeref
  | PARSER_DAG_ADD =>
      match left.id?, right.id? with
      | some l, some r => .ok (.add id l r)
      | _, _ => .error .nullDeref
  | PARSER_DAG_SUB =>
      match left.id?, right.id? with
      | some l, some r => .ok (.sub id l r)
      | _, _ => .error .nullDeref
  | unknown _ => .error .exitSoftware

/-- The function `reflect`: the statements written to the file, in order, and
`none` if the call returns or the reason it does not. -/
def reflect {D : Type} : parser_dag D → List (Stmt D) × Option Halt
  | .NULL => ([], none)
  | .node id op val left right =>
      match reflect left with
      | (o1, some h) => (o1, some h)
      | (o1, none) =>
          match reflect right with
          | (o2, some h) => (o1 ++ o2, some h)
          | (o2, none) =>
              match emitNode id op val left right with
              | .ok s => (o1 ++ o2 ++ [s], none)
              | .error h => (o1 ++ o2, some h)

/-- One `fprintf` call of `generate`, or a slot definition written by `reflect`. -/
inductive Line (D : Type) where
  /-- Format `"double (*sigmoidPtrLocalCopy)(double);\n"` -/
  | declPtr
  /-- Format `"double evaluate(void) {\n"` -/
  | openEvaluate
  /-- Format `"sigmoidPtrLocalCopy = (double (*)(double))%lu;\n"` -/
  | assignPtr (addr : Nat)
  /-- A line written by `reflect`. -/
  | stmt (s : Stmt D)
  /-- Format `"return sigmoidPtrLocalCopy(t%d);\n"` -/
  | ret (id : Nat)
  /-- Format `"}\n"` -/
  | closeBrace

/-- The characters of a line. -/
def Line.text {D : Type} (A : DoubleOps D) : Line D → String
  | .declPtr => "double (*sigmoidPtrLocalCopy)(double);\n"
  | .openEvaluate => "double evaluate(void) \x7b\n"
  | .assignPtr addr => "sigmoidPtrLocalCopy = (double (*)(double))" ++ toString addr ++ ";\n"
  | .stmt s => s.text A
  | .ret id => "return sigmoidPtrLocalCopy(" ++ slotName id ++ ");\n"
  | .closeBrace => "\x7d\n"

/-- The function `generate`; `sigmoidPtr` is the callback address as the
`unsigned long` printed with `%lu`. -/
def generate {D : Type} (dag : parser_dag D) (sigmoidPtr : Nat) : List (Line D) × Option Halt :=
  let head : List (Line D) := [.declPtr, .openEvaluate, .assignPtr sigmoidPtr]
  match reflect dag with
  | (o, some h) => (head ++ o.map .stmt, some h)
  | (o, none) =>
      match dag.id? with
      | none => (head ++ o.map .stmt, some .nullDeref)
      | some id => (head ++ o.map .stmt ++ [.ret id, .closeBrace], none)

/-! ## Shape of a DAG -/

/-- Whether an operator kind is one of the six `reflect` knows. -/
def opKnown : parser_dag_op → Bool
  | unknown _ => false
  | _ => true

namespace parser_dag

variable {D : Type}

/-- The ids of the nodes in post-order: left subtree, right subtree, node.  A
node with several parents is listed once per path from the root. -/
def postorderIds : parser_dag D → List Nat
  | NULL => []
  | node id _ _ left right => postorderIds left ++ postorderIds right ++ [id]

/-- The id and operator kind of the nodes in post-order. -/
def postorderOps : parser_dag D → List (Nat × parser_dag_op)
  | NULL => []
  | node id op _ left right => postorderOps left ++ postorderOps right ++ [(id, op)]

/-- The number of nodes, one with several parents counted once per path. -/
def size : parser_dag D → Nat
  | NULL => 0
  | node _ _ _ left right => size left + size right + 1

/-- The number of paths from the root to a node whose id is `i`. -/
def paths (i : Nat) : parser_dag D → Nat
  | NULL => 0
  | node id _ _ left right => (if id = i then 1 else 0) + paths i left + paths i right

/-- Whether a node with an operator kind outside the six is reachable. -/
def hasUnknown : parser_dag D → Bool
  | NULL => false
  | node _ op _ left right => !opKnown op || hasUnknown left || hasUnknown right

/-- Whether every reachable node has the children its operator reads: the right
one for NEGATE, both for MULTIPLY, DIVIDE, ADD and SUBTRACT. -/
def operandsPresent : parser_dag D → Bool
  | NULL => true
  | node _ op _ left right =>
      operandsPresent left && operandsPresent right &&
        match op with
        | PARSER_DAG_NEG => !right.isNull
        | PARSER_DAG_MUL => !left.isNull && !right.isNull
        | PARSER_DAG_DIV => !left.isNull && !right.isNull
        | PARSER_DAG_ADD => !left.isNull && !right.isNull
        | PARSER_DAG_SUB => !left.isNull && !right.isNull
        | _ => true

/-- Whether the DAG is built only from VALUE, ADD, SUBTRACT and MULTIPLY nodes,
each binary node having both children. -/
def arithOnly : parser_dag D → Bool
  | NULL => true
  | node _ op _ left right =>
      arithOnly left && arithOnly right &&
        match op with
        | PARSER_DAG_VAL => true
        | PARSER_DAG_ADD => !left.isNull && !right.isNull
        | PARSER_DAG_SUB => !left.isNull && !right.isNull
        | PARSER_DAG_MUL => !left.isNull && !right.isNull
        | _ => false

/-- The constants of the VALUE nodes. -/
def literals : parser_dag D → List D
  | NULL => []
  | node _ op val left right =>
      (if op = PARSER_DAG_VAL then [val] else []) ++ literals left ++ literals right

end parser_dag

/-! ## Running the generated program

The meaning of the generated C text.  A slot is a block-scope `double`
variable: defining a name twice in the block is rejected, as is the use of a
name with no definition, and a division is only evaluated in the branch of
`?:` that is selected. -/

/-- Why the generated program yields no value. -/
inductive ExecError where
  /-- A slot is read that no earlier statement defines. -/
  | undefinedSlot (i : Nat)
  /-- A slot is defined a second time. -/
  | redefinition (i : Nat)
  /-- The operator `/` is applied to a divisor that equals zero. -/
  | zeroDivisor
  /-- The text is not a complete entry function. -/
  | malformed
deriving DecidableEq

/-- The slots defined so far and their values. -/
abbrev Env (D : Type) := Nat → Option D

/-- The value of slot `i`. -/
def Env.read {D : Type} (σ : Env D) (i : Nat) : Except ExecError D :=
  match σ i with
  | some v => .ok v
  | none => .error (.undefinedSlot i)

/-- The definition `double t<i> = v;`. -/
def Env.define {D : Type} (σ : Env D) (i : Nat) (v : D) : Except ExecError (Env D) :=
  match σ i with
  | some _ => .error (.redefinition i)
  | none => .ok (Function.update σ i (some v))

/-- The value of the initialiser of a slot definition. -/
def Stmt.rhs {D : Type} (A : DoubleOps D) (σ : Env D) : Stmt D → Except ExecError D
  | .val _ v => .ok (A.readLit (A.printF v))
  | .neg _ a => do
      let x ← σ.read a
      .ok (A.neg x)
  | .mul _ a b => do
      let x ← σ.read a
      let y ← σ.read b
      .ok (A.mul x y)
  | .div _ c a b => do
      let t ← σ.read c
      if A.nonzero t then do
        let x ← σ.read a
        let y ← σ.read b
        if A.nonzero y then .ok (A.div x y) else .error .zeroDivisor
      else .ok A.zero
  | .add _ a b => do
      let x ← σ.read a
      let y ← σ.read b
      .ok (A.add x y)
  | .sub _ a b => do
      let x ← σ.read a
      let y ← σ.read b
      .ok (A.sub x y)

/-- One slot definition executed. -/
def exec {D : Type} (A : DoubleOps D) (σ : Env D) (s : Stmt D) : Except ExecError (Env D) := do
  let v ← s.rhs A σ
  σ.define s.target v

/-- Slot definitions executed in the order written. -/
def execAll {D : Type} (A : DoubleOps D) (σ : Env D) : List (Stmt D) → Except ExecError (Env D)
  | [] => .ok σ
  | s :: rest => do
      let σ1 ← exec A σ s
      execAll A σ1 rest

/-- The slot definitions at the front of a list of lines, and the lines after them. -/
def splitStmts {D : Type} : List (Line D) → List (Stmt D) × List (Line D)
  | .stmt s :: rest => ((splitStmts rest).1.cons s, (splitStmts rest).2)
  | rest => ([], rest)

/-- The value `evaluate()` returns in a process where calling the function at
address `a` with argument `x` gives `callAt a x`: the pointer variable is set
to the embedded address, the slot definitions run in order, and the callback
is applied to the returned slot. -/
def runProgram {D : Type} (A : DoubleOps D) (callAt : Nat → D → D) :
    List (Line D) → Except ExecError D
  | .declPtr :: .openEvaluate :: .assignPtr addr :: body =>
      match splitStmts body with
      | (stmts, [.ret id, .closeBrace]) => do
          let σ ← execAll A (fun _ => none) stmts
          let x ← σ.read id
          .ok (callAt addr x)
      | _ => .error .malformed
  | _ => .error .malformed

/-- The value of the expression computed directly on the DAG, for the
operators VALUE, ADD, SUBTRACT and MULTIPLY.  This is the spec's "directly
evaluating the same expression", written from its words; the program has no
such function. -/
def directValue {D : Type} (A : DoubleOps D) : parser_dag D → Option D
  | .NULL => none
  | .node _ op val left right =>
      match op with
      | PARSER_DAG_VAL => some val
      | PARSER_DAG_ADD =>
          match directValue A left, directValue A right with
          | some x, some y => some (A.add x y)
          | _, _ => none
      | PARSER_DAG_SUB =>
          match directValue A left, directValue A right with
          | some x, some y => some (A.sub x y)
          | _, _ => none
      | PARSER_DAG_MUL =>
          match directValue A left, directValue A right with
          | some x, some y => some (A.mul x y)
          | _, _ => none
      | _ => none

section Examples

/-- A leaf `VALUE` node. -/
def leaf {D : Type} (id : Nat) (v : D) : parser_dag D :=
  .node id PARSER_DAG_VAL v .NULL .NULL

/-- The DAG of `2+3*4`. -/
def dagScenarioA : parser_dag ℚ :=
  .node 4 PARSER_DAG_ADD 0 (leaf 0 2) (.node 3 PARSER_DAG_MUL 0 (leaf 1 3) (leaf 2 4))

/-- The DAG of `1/0`. -/
def dagScenarioB : parser_dag ℚ :=
  .node 2 PARSER_DAG_DIV 0 (leaf 0 1) (leaf 1 0)

/-- The double nearest to `0.0000001`, which is `0x1.ad7f29abcaf48p-24`. -/
def tenMillionth : ℚ := 944473296573929 / 2 ^ 73

/-- The DAG of `0.0000001`. -/
def dagTiny : parser_dag ℚ := leaf 0 tenMillionth

/-- A DAG in which the node `0` is both children of the node `1` (`3*3` with the
operand shared). -/
def dagShared : parser_dag ℚ :=
  .node 1 PARSER_DAG_MUL 0 (leaf 0 3) (leaf 0 3)

/-- The DAG of `1 + ?` whose right operand has an operator kind outside the six. -/
def dagUnknown : parser_dag ℚ :=
  .node 2 PARSER_DAG_ADD 0 (leaf 0 1) (.node 1 (unknown 0) 0 .NULL .NULL)

/-- The DAG of `0.0000001*10000000`. -/
def dagTinyTimes : parser_dag ℚ :=
  .node 2 PARSER_DAG_MUL 0 (leaf 0 tenMillionth) (leaf 1 10000000)

end Examples

/-! ## The compilation driver and the loader (`jitc.c`) -/

/-- The termination status `waitpid` stores: the child left through `exit` (or a
return from `main`) with the given code, or was ended by a signal. -/
inductive WaitStatus where
  | exited (code : Nat)
  | signaled (sig : Nat)
deriving DecidableEq

/-- The macro `WIFEXITED` of `<sys/wait.h>`. -/
def WIFEXITED : WaitStatus → Bool
  | .exited _ => true
  | .signaled _ => false

/-- The macro `WEXITSTATUS` of `<sys/wait.h>`: bits 8 to 15 of the status, which
hold the exit code of a child that exited and are zero for one ended by a
signal. -/
def WEXITSTATUS : WaitStatus → Nat
  | .exited code => code
  | .signaled _ => 0

/-- What the process facility answers during one call of `jitc_compile`, in
the process under consideration. -/
structure ProcessCalls where
  /-- The value `fork()` returns: negative on failure, zero in the child, the
  child's pid in the parent. -/
  fork : Int
  /-- The value `execv` returns, or `none` when it replaces the process image
  (then it does not return). -/
  execv : Option Int
  /-- The value `waitpid` returns. -/
  waitpid : Int
  /-- The status `waitpid` stores. -/
  status : WaitStatus

/-- How a call of `jitc_compile` ends in this process. -/
inductive CompileOutcome where
  /-- The function returns this value. -/
  | returned (v : Int)
  /-- The process became the compiler (`execv` succeeded in the child). -/
  | replaced
deriving DecidableEq

/-- The function `jitc_compile`. -/
def jitc_compile (p : ProcessCalls) : CompileOutcome :=
  let processId := p.fork
  if processId < 0 then .returned (-1)
  else if processId = 0 then
    match p.execv with
    | none => .replaced
    | some r => if r = -1 then .returned (-1) else .returned 0
  else
    let child_processId := p.waitpid
    if child_processId < 0 then .returned (-1)
    else if WIFEXITED p.status && WEXITSTATUS p.status == 0 then .returned 0
    else .returned (-1)

/-- The object `struct jitc`; a pointer to one is an `Option jitc`, `none` being
`NULL`.  `outLibHandle` is the `void *` of `dlopen` as a number, `0` for `NULL`. -/
structure jitc where
  outLibHandle : Nat
deriving DecidableEq

/-- What the allocator and the dynamic loader answer. -/
structure LoaderCalls where
  /-- Whether `malloc` returns a block. -/
  malloc : Bool
  /-- The handle `dlopen(pathname, RTLD_LAZY)` returns, `0` for `NULL`. -/
  dlopen : String → Nat
  /-- The address `dlsym(handle, symbol)` returns, `0` for `NULL`. -/
  dlsym : Nat → String → Nat
  /-- The value `dlclose(handle)` returns. -/
  dlclose : Nat → Int

/-- The function `jitc_open`. -/
def jitc_open (c : LoaderCalls) (pathname : String) : Option jitc :=
  if !c.malloc then none
  else
    let h := c.dlopen pathname
    if h = 0 then none else some { outLibHandle := h }

/-- A call `jitc_close` makes. -/
inductive CloseCall where
  | dlclose (handle : Nat)
  | printError
  | free
deriving DecidableEq

/-- The function `jitc_close`: the calls it makes, and `none` if it returns or
the reason it does not.  Its first action reads `jitc->outLibHandle`. -/
def jitc_close (c : LoaderCalls) : Option jitc → List CloseCall × Option Halt
  | none => ([], some Halt.nullDeref)
  | some j =>
      if c.dlclose j.outLibHandle ≠ 0 then ([.dlclose j.outLibHandle, .printError, .free], none)
      else ([.dlclose j.outLibHandle, .free], none)

/-- The conversion `(long) address` of a 64-bit pointer. -/
def toLong (a : Nat) : Int :=
  if a % 2 ^ 64 < 2 ^ 63 then (a % 2 ^ 64 : Nat) else ((a % 2 ^ 64 : Nat) : Int) - 2 ^ 64

/-- The function `jitc_lookup`. -/
def jitc_lookup (c : LoaderCalls) : Option jitc → String → Except Halt Int
  | none, _ => .error .nullDeref
  | some j, symbol =>
      let address := c.dlsym j.outLibHandle symbol
      if address = 0 then .ok 0 else .ok (toLong address)

/-! ## The orchestrator (`main` of `main.c`) -/

/-- A call `main` makes, in the order made. -/
inductive Event where
  | printUsage
  | TRACE
  | parser_open
  | fopen
  /-- The call `generate(parser_dag(parser), file, sigmoidPtr)`, with whether the
  root passed is `NULL`. -/
  | generate (rootIsNull : Bool)
  | parser_close
  | fclose
  | jitc_compile
  | file_delete (pathname : String)
  /-- The call `jitc_open(SOFILE)` and what it returned. -/
  | jitc_open (result : Option jitc)
  | jitc_lookup
  /-- The call `fnc()` of the loaded entry function. -/
  | invoke
  /-- The call `jitc_close(jitc)` and its argument. -/
  | jitc_close (arg : Option jitc)
deriving DecidableEq

/-- How a run of `main` ends. -/
inductive Outcome where
  | returned (code : Int)
  | halted (h : Halt)
  /-- The process became the compiler inside `jitc_compile`. -/
  | replaced
deriving DecidableEq

/-- Everything outside `main` that decides a run: the arguments, the parser, the
file system, the process facility and the loader.  The loaded entry function
is taken to return. -/
structure World (D : Type) where
  argc : Int
  /-- Whether `parser_open(argv[1])` returns a parser. -/
  parser_open : Bool
  /-- Whether `fopen(CFILE, "w")` returns a stream. -/
  fopen : Bool
  /-- The root `parser_dag(parser)` returns. -/
  parser_dag : parser_dag D
  /-- The address of `sigmoid`. -/
  sigmoidPtr : Nat
  proc : ProcessCalls
  loader : LoaderCalls

/-- The branch of `main` taken when `jitc_open` or `jitc_lookup` fails. -/
def mainLoadFailed (c : LoaderCalls) (before : List Event) (j : Option jitc) :
    List Event × Outcome :=
  let events := before ++ [.file_delete "out.so", .jitc_close j]
  match (jitc_close c j).2 with
  | some h => (events, .halted h)
  | none => (events ++ [.TRACE], .returned (-1))

/-- The function `main`: the calls made and how the run ends. -/
def main {D : Type} (w : World D) : List Event × Outcome :=
  if w.argc ≠ 2 then ([.printUsage], .returned (-1))
  else if !w.parser_open then ([.parser_open, .TRACE], .returned (-1))
  else if !w.fopen then ([.parser_open, .fopen, .TRACE], .returned (-1))
  else
    let e1 : List Event := [.parser_open, .fopen, .generate w.parser_dag.isNull]
    match (generate w.parser_dag w.sigmoidPtr).2 with
    | some h => (e1, .halted h)
    | none =>
        let e2 := e1 ++ [.parser_close, .fclose, .jitc_compile]
        match jitc_compile w.proc with
        | .replaced => (e2, .replaced)
        | .returned r =>
            if r ≠ 0 then (e2 ++ [.file_delete "out.c", .TRACE], .returned (-1))
            else
              let j := jitc_open w.loader "out.so"
              let e3 := e2 ++ [.file_delete "out.c", .jitc_open j]
              match j with
              | none => mainLoadFailed w.loader e3 j
              | some _ =>
                  match jitc_lookup w.loader j "evaluate" with
                  | .error h => (e3 ++ [.jitc_lookup], .halted h)
                  | .ok fnc =>
                      if fnc = 0 then mainLoadFailed w.loader (e3 ++ [.jitc_lookup]) j
                      else
                        let e4 := e3 ++ [.jitc_lookup, .invoke, .file_delete "out.so", .jitc_close j]
                        match (jitc_close w.loader j).2 with
                        | some h => (e4, .halted h)
                        | none => (e4, .returned 0)

/-- What the orchestrator holds of the loader between two calls. -/
inductive LoaderState where
  /-- No result of `jitc_open` is outstanding: it has not been called yet, or
  what it returned last has been passed to `jitc_close`. -/
  | idle
  /-- The last call of `jitc_open` returned `result` (a handle, now Loaded, or
  `NULL` when it failed), and `result` has not been passed to `jitc_close`. -/
  | opened (result : Option jitc)
deriving DecidableEq

/-- The loader's state machine (Unloaded, Loaded, Unloaded) followed along the
calls; the result is `none` once a call breaks the discipline.  A call of
`jitc_close` is let through only when a result of `jitc_open` is outstanding
and the argument is that very result: the handle then Loaded, or, with
`nullOk`, the `NULL` of a `jitc_open` that failed.  Without `nullOk` only a
Loaded handle may be closed.  A call of `jitc_open` while a handle is Loaded
breaks the discipline too: that handle could no longer be released. -/
def loaderStep (nullOk : Bool) : LoaderState → Event → Option LoaderState
  | .opened (some _), .jitc_open _ => none
  | _, .jitc_open r => some (.opened r)
  | .idle, .jitc_close _ => none
  | .opened r, .jitc_close a =>
      if a = r then
        match r with
        | some _ => some .idle
        | none => if nullOk then some .idle else none
      else none
  | st, _ => some st

/-- Whether every `jitc_close` of a sequence of calls keeps the discipline of
`loaderStep`, starting from the given state. -/
def closesLoaded (nullOk : Bool) : LoaderState → List Event → Bool
  | _, [] => true
  | st, e :: rest =>
      match loaderStep nullOk st e with
      | none => false
      | some st1 => closesLoaded nullOk st1 rest

section Worlds

/-- The child was created, ran the compiler and exited with code 0. -/
def callsChildOk : ProcessCalls :=
  { fork := 4242, execv := none, waitpid := 4242, status := .exited 0 }

/-- A loader for which `dlopen` finds no module. -/
def loaderNoModule : LoaderCalls :=
  { malloc := true, dlopen := fun _ => 0, dlsym := fun _ _ => 0, dlclose := fun _ => 0 }

/-- A loader for which every call succeeds. -/
def loaderOk : LoaderCalls :=
  { malloc := true, dlopen := fun _ => 4096, dlsym := fun _ _ => 8192, dlclose := fun _ => 0 }

/-- A run in which every stage up to `jitc_open` succeeds and `jitc_open` fails. -/
def worldOpenFails : World ℚ :=
  { argc := 2, parser_open := true, fopen := true, parser_dag := dagScenarioA,
    sigmoidPtr := 4096, proc := callsChildOk, loader := loaderNoModule }

/-- A run in which the parser hands out a `NULL` root. -/
def worldNullRoot : World ℚ :=
  { argc := 2, parser_open := true, fopen := true, parser_dag := .NULL,
    sigmoidPtr := 4096, proc := callsChildOk, loader := loaderOk }

/-- A run in which every stage succeeds. -/
def worldOk : World ℚ :=
  { argc := 2, parser_open := true, fopen := true, parser_dag := dagScenarioA,
    sigmoidPtr := 4096, proc := callsChildOk, loader := loaderOk }

end Worlds

/-! # Theorems -/

section Lemmas

variable {D : Type}

/-! ## `reflect`: what is written and how the call ends -/

/-- A pointer that is not `NULL` has an `id` to read. -/
theorem id?_of_not_isNull {p : parser_dag D} (h : p.isNull = false) : ∃ i, p.id? = some i := by
  cases p with
  | NULL => simp [parser_dag.isNull] at h
  | node id op val l r => exact ⟨id, rfl⟩

/-- On a node with a known operator whose operands are present, the chain of
`reflect` writes one statement, which defines the node's own slot. -/
theorem emitNode_ok (id : Nat) (op : parser_dag_op) (val : D) (l r : parser_dag D)
    (hk : opKnown op = true)
    (hp : (parser_dag.node id op val l r).operandsPresent = true) :
    ∃ s, emitNode id op val l r = .ok s ∧ s.target = id := by
  cases op with
  | PARSER_DAG_VAL => exact ⟨_, rfl, rfl⟩
  | PARSER_DAG_NEG =>
      simp [parser_dag.operandsPresent] at hp
      obtain ⟨j, hj⟩ := id?_of_not_isNull hp.2
      exact ⟨.neg id j, by simp [emitNode, hj], rfl⟩
  | PARSER_DAG_MUL =>
      simp [parser_dag.operandsPresent] at hp
      obtain ⟨i, hi⟩ := id?_of_not_isNull hp.2.1
      obtain ⟨j, hj⟩ := id?_of_not_isNull hp.2.2
      exact ⟨.mul id i j, by simp [emitNode, hi, hj], rfl⟩
  | PARSER_DAG_DIV =>
      simp [parser_dag.operandsPresent] at hp
      obtain ⟨i, hi⟩ := id?_of_not_isNull hp.2.1
      obtain ⟨j, hj⟩ := id?_of_not_isNull hp.2.2
      exact ⟨.div id j i j, by simp [emitNode, hi, hj], rfl⟩
  | PARSER_DAG_ADD =>
      simp [parser_dag.operandsPresent] at hp
      obtain ⟨i, hi⟩ := id?_of_not_isNull hp.2.1
      obtain ⟨j, hj⟩ := id?_of_not_isNull hp.2.2
      exact ⟨.add id i j, by simp [emitNode, hi, hj], rfl⟩
  | PARSER_DAG_SUB =>
      simp [parser_dag.operandsPresent] at hp
      obtain ⟨i, hi⟩ := id?_of_not_isNull hp.2.1
      obtain ⟨j, hj⟩ := id?_of_not_isNull hp.2.2
      exact ⟨.sub id i j, by simp [emitNode, hi, hj], rfl⟩
  | unknown t => simp [opKnown] at hk

/-- On an unknown operator the chain of `reflect` reaches `EXIT`. -/
theorem emitNode_unknown (id : Nat) (op : parser_dag_op) (val : D) (l r : parser_dag D)
    (hk : opKnown op = false) : emitNode id op val l r = .error .exitSoftware := by
  cases op <;> simp [opKnown] at hk
  rfl

/-- On a known operator the chain of `reflect` does not reach `EXIT`. -/
theorem emitNode_known_ne_exit (id : Nat) (op : parser_dag_op) (val : D) (l r : parser_dag D)
    (hk : opKnown op = true) : emitNode id op val l r ≠ .error .exitSoftware := by
  cases op <;>
    first
    | (simp [opKnown] at hk; done)
    | (simp [emitNode]; done)
    | (simp only [emitNode]; split <;> simp)

/-- The unfolding of `reflect` on a node whose two recursive calls return. -/
theorem reflect_node_of_returns (id : Nat) (op : parser_dag_op) (val : D) (l r : parser_dag D)
    (hl : (reflect l).2 = none) (hr : (reflect r).2 = none) :
    reflect (.node id op val l r) =
      match emitNode id op val l r with
      | .ok s => ((reflect l).1 ++ (reflect r).1 ++ [s], none)
      | .error h => ((reflect l).1 ++ (reflect r).1, some h) := by
  rw [reflect]
  rcases hrl : reflect l with ⟨o1, h1⟩
  rcases hrr : reflect r with ⟨o2, h2⟩
  rw [hrl] at hl
  rw [hrr] at hr
  simp only at hl hr
  subst hl hr
  rfl

/-- The unfolding of `reflect` on a node whose first recursive call does not
return. -/
theorem reflect_node_left_halts (id : Nat) (op : parser_dag_op) (val : D) (l r : parser_dag D)
    (h : Halt) (hl : (reflect l).2 = some h) :
    reflect (.node id op val l r) = ((reflect l).1, some h) := by
  rw [reflect]
  rcases hrl : reflect l with ⟨o1, h1⟩
  rw [hrl] at hl
  simp only at hl
  subst hl
  rfl

/-- The unfolding of `reflect` on a node whose second recursive call does not
return. -/
theorem reflect_node_right_halts (id : Nat) (op : parser_dag_op) (val : D) (l r : parser_dag D)
    (h : Halt) (hl : (reflect l).2 = none) (hr : (reflect r).2 = some h) :
    reflect (.node id op val l r) = ((reflect l).1 ++ (reflect r).1, some h) := by
  rw [reflect]
  rcases hrl : reflect l with ⟨o1, h1⟩
  rcases hrr : reflect r with ⟨o2, h2⟩
  rw [hrl] at hl
  rw [hrr] at hr
  simp only at hl hr
  subst hl hr
  rfl

/-- On a DAG with known operators and present operands `reflect` returns, and
the slots defined by its output, in order, are the node ids in post-order. -/
theorem reflect_returns (dag : parser_dag D)
    (hk : dag.hasUnknown = false) (hp : dag.operandsPresent = true) :
    (reflect dag).2 = none ∧ (reflect dag).1.map Stmt.target = dag.postorderIds := by
  induction dag with
  | NULL => exact ⟨rfl, rfl⟩
  | node id op val l r ihl ihr =>
      have hk' := hk
      have hp' := hp
      simp only [parser_dag.hasUnknown, Bool.or_eq_false_iff, Bool.not_eq_false'] at hk'
      simp only [parser_dag.operandsPresent, Bool.and_eq_true] at hp'
      obtain ⟨hl2, hl1⟩ := ihl hk'.1.2 hp'.1.1
      obtain ⟨hr2, hr1⟩ := ihr hk'.2 hp'.1.2
      obtain ⟨s, hs, hst⟩ := emitNode_ok id op val l r hk'.1.1 hp
      rw [reflect_node_of_returns id op val l r hl2 hr2, hs]
      simp [hl1, hr1, hst, parser_dag.postorderIds]

/-- An id occurs in the post-order list once per path from the root to a node
with that id. -/
theorem count_postorderIds (dag : parser_dag D) (i : Nat) :
    dag.postorderIds.count i = dag.paths i := by
  induction dag with
  | NULL => rfl
  | node id op val l r ihl ihr =>
      simp only [parser_dag.postorderIds, parser_dag.paths, List.count_append, ihl, ihr,
        List.count_singleton]
      by_cases h : id = i
      · simp [h]; omega
      · have h' : (id == i) = false := by simpa using h
        simp [h, h']

/-- The post-order list has one entry per node. -/
theorem length_postorderIds (dag : parser_dag D) : dag.postorderIds.length = dag.size := by
  induction dag with
  | NULL => rfl
  | node id op val l r ihl ihr =>
      simp [parser_dag.postorderIds, parser_dag.size, ihl, ihr]
      omega


/-- The longest initial segment satisfying `p` runs through a list all of whose
elements satisfy `p`. -/
theorem takeWhile_append_of_all {α : Type} (p : α → Bool) (xs ys : List α)
    (h : ∀ x ∈ xs, p x = true) : (xs ++ ys).takeWhile p = xs ++ ys.takeWhile p := by
  induction xs with
  | nil => rfl
  | cons x rest ih =>
      have hx := h x (by simp)
      simp [List.takeWhile_cons, hx, ih (fun y hy => h y (by simp [hy]))]

/-- The longest initial segment satisfying `p` stops inside a list one of whose
elements fails `p`. -/
theorem takeWhile_append_of_exists {α : Type} (p : α → Bool) (xs ys : List α)
    (h : ∃ x ∈ xs, p x = false) : (xs ++ ys).takeWhile p = xs.takeWhile p := by
  induction xs with
  | nil => simp at h
  | cons x rest ih =>
      by_cases hx : p x = true
      · have hrest : ∃ y ∈ rest, p y = false := by
          obtain ⟨y, hy, hpy⟩ := h
          rcases List.mem_cons.mp hy with rfl | hy'
          · rw [hx] at hpy; cases hpy
          · exact ⟨y, hy', hpy⟩
        simp [List.takeWhile_cons, hx, ih hrest]
      · simp [List.takeWhile_cons, hx]

/-- An unknown operator is reachable exactly when one is listed in post-order.
-/
theorem hasUnknown_iff (dag : parser_dag D) :
    dag.hasUnknown = true ↔ ∃ x ∈ dag.postorderOps, opKnown x.2 = false := by
  induction dag with
  | NULL => simp [parser_dag.hasUnknown, parser_dag.postorderOps]
  | node id op val l r ihl ihr =>
      simp only [parser_dag.hasUnknown, parser_dag.postorderOps, Bool.or_eq_true, ihl, ihr,
        List.mem_append, List.mem_singleton]
      constructor
      · rintro ((h | ⟨x, hx, hk⟩) | ⟨x, hx, hk⟩)
        · exact ⟨(id, op), Or.inr rfl, by simpa using h⟩
        · exact ⟨x, Or.inl (Or.inl hx), hk⟩
        · exact ⟨x, Or.inl (Or.inr hx), hk⟩
      · rintro ⟨x, (hx | hx) | rfl, hk⟩
        · exact Or.inl (Or.inr ⟨x, hx, hk⟩)
        · exact Or.inr ⟨x, hx, hk⟩
        · exact Or.inl (Or.inl (by simpa using hk))

/-- Without a reachable unknown operator, every listed operator is known. -/
theorem all_known_of_not_hasUnknown (dag : parser_dag D) (h : dag.hasUnknown = false) :
    ∀ x ∈ dag.postorderOps, opKnown x.2 = true := by
  intro x hx
  by_contra hk
  have : dag.hasUnknown = true := (hasUnknown_iff dag).mpr ⟨x, hx, by simpa using hk⟩
  rw [h] at this
  cases this

/-- The ids of `postorderOps` are `postorderIds`. -/
theorem map_fst_postorderOps (dag : parser_dag D) :
    dag.postorderOps.map Prod.fst = dag.postorderIds := by
  induction dag with
  | NULL => rfl
  | node id op val l r ihl ihr => simp [parser_dag.postorderOps, parser_dag.postorderIds, ihl, ihr]

/-- With the operands present, `reflect` ends in `EXIT` exactly when an unknown
operator is reachable, and what it has written by then defines the slots of
the nodes that come before the first such node in post-order. -/
theorem reflect_prefix (dag : parser_dag D) (hp : dag.operandsPresent = true) :
    (reflect dag).2 = (if dag.hasUnknown then some Halt.exitSoftware else none) ∧
    (reflect dag).1.map Stmt.target =
      ((dag.postorderOps.takeWhile fun x => opKnown x.2).map Prod.fst) := by
  induction dag with
  | NULL => exact ⟨rfl, rfl⟩
  | node id op val l r ihl ihr =>
      have hp' := hp
      simp only [parser_dag.operandsPresent, Bool.and_eq_true] at hp'
      obtain ⟨hl2, hl1⟩ := ihl hp'.1.1
      obtain ⟨hr2, hr1⟩ := ihr hp'.1.2
      by_cases hul : l.hasUnknown = true
      · rw [hul] at hl2
        rw [reflect_node_left_halts id op val l r _ hl2]
        refine ⟨by simp [parser_dag.hasUnknown, hul], ?_⟩
        simp only [parser_dag.postorderOps, List.append_assoc]
        rw [takeWhile_append_of_exists _ _ _ ((hasUnknown_iff l).mp hul)]
        exact hl1
      · have hul' : l.hasUnknown = false := by simpa using hul
        rw [hul'] at hl2
        have hlall := all_known_of_not_hasUnknown l hul'
        by_cases hur : r.hasUnknown = true
        · rw [hur] at hr2
          rw [reflect_node_right_halts id op val l r _ hl2 hr2]
          refine ⟨by simp [parser_dag.hasUnknown, hur], ?_⟩
          simp only [parser_dag.postorderOps, List.append_assoc]
          rw [takeWhile_append_of_all _ _ _ hlall,
            takeWhile_append_of_exists _ _ _ ((hasUnknown_iff r).mp hur)]
          rw [List.takeWhile_eq_self_iff.mpr (by simpa using hlall)] at hl1
          simp [hl1, hr1]
        · have hur' : r.hasUnknown = false := by simpa using hur
          rw [hur'] at hr2
          have hrall := all_known_of_not_hasUnknown r hur'
          rw [List.takeWhile_eq_self_iff.mpr (by simpa using hlall)] at hl1
          rw [List.takeWhile_eq_self_iff.mpr (by simpa using hrall)] at hr1
          rw [reflect_node_of_returns id op val l r hl2 hr2]
          simp only [parser_dag.postorderOps, List.append_assoc]
          rw [takeWhile_append_of_all _ _ _ hlall, takeWhile_append_of_all _ _ _ hrall]
          by_cases hk : opKnown op = true
          · obtain ⟨s, hs, hst⟩ := emitNode_ok id op val l r hk hp
            rw [hs]
            simp [parser_dag.hasUnknown, hul', hur', hk, hl1, hr1, hst, List.takeWhile_cons]
          · have hk' : opKnown op = false := by simpa using hk
            rw [emitNode_unknown id op val l r hk']
            simp [parser_dag.hasUnknown, hul', hur', hk', hl1, hr1, List.takeWhile_cons]

/-- A reachable unknown operator keeps `reflect` from returning, whatever
else is wrong with the DAG. -/
theorem reflect_halts_of_hasUnknown (dag : parser_dag D) (h : dag.hasUnknown = true) :
    (reflect dag).2 ≠ none := by
  induction dag with
  | NULL => simp [parser_dag.hasUnknown] at h
  | node id op val l r ihl ihr =>
      cases hl : (reflect l).2 with
      | some hh => rw [reflect_node_left_halts id op val l r hh hl]; simp
      | none =>
          cases hr : (reflect r).2 with
          | some hh => rw [reflect_node_right_halts id op val l r hh hl hr]; simp
          | none =>
              have hul : l.hasUnknown = false := by
                by_contra hc
                exact ihl (by simpa using hc) hl
              have hur : r.hasUnknown = false := by
                by_contra hc
                exact ihr (by simpa using hc) hr
              have hk : opKnown op = false := by
                simpa [parser_dag.hasUnknown, hul, hur] using h
              rw [reflect_node_of_returns id op val l r hl hr, emitNode_unknown id op val l r hk]
              simp

/-- Without an unknown operator `reflect` never ends in `EXIT`. -/
theorem reflect_no_exit (dag : parser_dag D) (h : dag.hasUnknown = false) :
    (reflect dag).2 ≠ some Halt.exitSoftware := by
  induction dag with
  | NULL => simp [reflect]
  | node id op val l r ihl ihr =>
      simp only [parser_dag.hasUnknown, Bool.or_eq_false_iff, Bool.not_eq_false'] at h
      cases hl : (reflect l).2 with
      | some hh =>
          rw [reflect_node_left_halts id op val l r hh hl]
          intro hc
          exact ihl h.1.2 (by rw [hl]; exact hc)
      | none =>
          cases hr : (reflect r).2 with
          | some hh =>
              rw [reflect_node_right_halts id op val l r hh hl hr]
              intro hc
              exact ihr h.2 (by rw [hr]; exact hc)
          | none =>
              rw [reflect_node_of_returns id op val l r hl hr]
              have := emitNode_known_ne_exit id op val l r h.1.1
              cases he : emitNode id op val l r with
              | ok s => simp
              | error hh =>
                  rw [he] at this
                  simpa using this

/-- When the chain of `reflect` writes a statement for a node, the operator is
known, the operands it reads are present, and the statement defines the
node's own slot. -/
theorem emitNode_ok_inv (id : Nat) (op : parser_dag_op) (val : D) (l r : parser_dag D)
    (s : Stmt D) (h : emitNode id op val l r = .ok s) :
    s.target = id ∧ opKnown op = true ∧
      (parser_dag.node id op val l r).operandsPresent =
        (l.operandsPresent && r.operandsPresent) := by
  cases op with
  | PARSER_DAG_VAL =>
      simp only [emitNode, Except.ok.injEq] at h
      subst h
      simp [Stmt.target, opKnown, parser_dag.operandsPresent]
  | PARSER_DAG_NEG =>
      cases hr : r with
      | NULL => simp [emitNode, hr, parser_dag.id?] at h
      | node rid rop rval rl rr =>
          simp only [emitNode, hr, parser_dag.id?, Except.ok.injEq] at h
          subst h
          simp [Stmt.target, opKnown, parser_dag.operandsPresent, parser_dag.isNull]
  | PARSER_DAG_MUL =>
      cases hl : l with
      | NULL => simp [emitNode, hl, parser_dag.id?] at h
      | node lid lop lval ll lr =>
          cases hr : r with
          | NULL => simp [emitNode, hl, hr, parser_dag.id?] at h
          | node rid rop rval rl rr =>
              simp only [emitNode, hl, hr, parser_dag.id?, Except.ok.injEq] at h
              subst h
              simp [Stmt.target, opKnown, parser_dag.operandsPresent, parser_dag.isNull]
  | PARSER_DAG_DIV =>
      cases hl : l with
      | NULL => simp [emitNode, hl, parser_dag.id?] at h
      | node lid lop lval ll lr =>
          cases hr : r with
          | NULL => simp [emitNode, hl, hr, parser_dag.id?] at h
          | node rid rop rval rl rr =>
              simp only [emitNode, hl, hr, parser_dag.id?, Except.ok.injEq] at h
              subst h
              simp [Stmt.target, opKnown, parser_dag.operandsPresent, parser_dag.isNull]
  | PARSER_DAG_ADD =>
      cases hl : l with
      | NULL => simp [emitNode, hl, parser_dag.id?] at h
      | node lid lop lval ll lr =>
          cases hr : r with
          | NULL => simp [emitNode, hl, hr, parser_dag.id?] at h
          | node rid rop rval rl rr =>
              simp only [emitNode, hl, hr, parser_dag.id?, Except.ok.injEq] at h
              subst h
              simp [Stmt.target, opKnown, parser_dag.operandsPresent, parser_dag.isNull]
  | PARSER_DAG_SUB =>
      cases hl : l with
      | NULL => simp [emitNode, hl, parser_dag.id?] at h
      | node lid lop lval ll lr =>
          cases hr : r with
          | NULL => simp [emitNode, hl, hr, parser_dag.id?] at h
          | node rid rop rval rl rr =>
              simp only [emitNode, hl, hr, parser_dag.id?, Except.ok.injEq] at h
              subst h
              simp [Stmt.target, opKnown, parser_dag.operandsPresent, parser_dag.isNull]
  | unknown t => simp [emitNode] at h

/-- Whatever the DAG, `reflect` returns exactly when every reachable operator
is known and has its operands; what it has written always defines an initial
segment of the node ids in post-order, and all of them once it returns. -/
theorem reflect_segment (dag : parser_dag D) :
    ((reflect dag).2 = none ↔ (dag.hasUnknown = false ∧ dag.operandsPresent = true)) ∧
    (reflect dag).1.map Stmt.target <+: dag.postorderIds := by
  induction dag with
  | NULL => exact ⟨by simp [reflect, parser_dag.hasUnknown, parser_dag.operandsPresent],
      by simp [reflect, parser_dag.postorderIds]⟩
  | node id op val l r ihl ihr =>
      obtain ⟨hliff, hlpre⟩ := ihl
      obtain ⟨hriff, hrpre⟩ := ihr
      cases hl : (reflect l).2 with
      | some hh =>
          have hnl : ¬(l.hasUnknown = false ∧ l.operandsPresent = true) := fun hc => by
            have := hliff.mpr hc
            rw [hl] at this
            cases this
          rw [reflect_node_left_halts id op val l r hh hl]
          constructor
          · constructor
            · intro hc; cases hc
            · rintro ⟨hu, hp⟩
              simp only [parser_dag.hasUnknown, Bool.or_eq_false_iff] at hu
              simp only [parser_dag.operandsPresent, Bool.and_eq_true] at hp
              exact absurd ⟨hu.1.2, hp.1.1⟩ hnl
          · simp only [parser_dag.postorderIds, List.append_assoc]
            exact hlpre.trans (List.prefix_append _ _)
      | none =>
          have hlv := hliff.mp hl
          have hlall := (reflect_returns l hlv.1 hlv.2).2
          cases hr : (reflect r).2 with
          | some hh =>
              have hnr : ¬(r.hasUnknown = false ∧ r.operandsPresent = true) := fun hc => by
                have := hriff.mpr hc
                rw [hr] at this
                cases this
              rw [reflect_node_right_halts id op val l r hh hl hr]
              constructor
              · constructor
                · intro hc; cases hc
                · rintro ⟨hu, hp⟩
                  simp only [parser_dag.hasUnknown, Bool.or_eq_false_iff] at hu
                  simp only [parser_dag.operandsPresent, Bool.and_eq_true] at hp
                  exact absurd ⟨hu.2, hp.1.2⟩ hnr
              · simp only [parser_dag.postorderIds, List.append_assoc, List.map_append, hlall]
                exact (List.prefix_append_right_inj _).mpr
                  (hrpre.trans (List.prefix_append _ _))
          | none =>
              have hrv := hriff.mp hr
              have hrall := (reflect_returns r hrv.1 hrv.2).2
              rw [reflect_node_of_returns id op val l r hl hr]
              cases he : emitNode id op val l r with
              | ok s =>
                  obtain ⟨hst, hk, hp⟩ := emitNode_ok_inv id op val l r s he
                  constructor
                  · simp [parser_dag.hasUnknown, hk, hlv.1, hrv.1, hp, hlv.2, hrv.2]
                  · simp [parser_dag.postorderIds, hlall, hrall, hst]
              | error hh =>
                  constructor
                  · constructor
                    · intro hc; cases hc
                    · rintro ⟨hu, hp⟩
                      have hu' := hu
                      simp only [parser_dag.hasUnknown, Bool.or_eq_false_iff,
                        Bool.not_eq_false'] at hu'
                      obtain ⟨s, hs, -⟩ := emitNode_ok id op val l r hu'.1.1 hp
                      rw [he] at hs
                      cases hs
                  · simp only [parser_dag.postorderIds, List.map_append, hlall, hrall]
                    exact List.prefix_append _ _

/-! ## Running the output of `reflect` -/

/-- Running two lists of statements one after the other. -/
theorem execAll_append (A : DoubleOps D) (σ : Env D) (xs ys : List (Stmt D)) :
    execAll A σ (xs ++ ys) = (execAll A σ xs).bind fun σ1 => execAll A σ1 ys := by
  induction xs generalizing σ with
  | nil => rfl
  | cons s rest ih =>
      simp only [List.cons_append, execAll, bind]
      cases exec A σ s with
      | error e => rfl
      | ok σ1 => simp only [Except.bind]; exact ih σ1

/-- Running one statement. -/
theorem execAll_singleton (A : DoubleOps D) (σ : Env D) (s : Stmt D) :
    execAll A σ [s] = exec A σ s := by
  simp only [execAll, bind]
  cases exec A σ s <;> rfl

/-- A binary arithmetic statement whose operands are defined and whose target
is not. -/
theorem exec_define (A : DoubleOps D) (σ : Env D) (s : Stmt D) (v : D)
    (hrhs : s.rhs A σ = .ok v) (hfree : σ s.target = none) :
    exec A σ s = .ok (Function.update σ s.target (some v)) := by
  simp [exec, hrhs, Env.define, hfree, bind, Except.bind]

/-- The id of the root is among the ids of the DAG. -/
theorem id?_mem_postorderIds {p : parser_dag D} {i : Nat} (h : p.id? = some i) :
    i ∈ p.postorderIds := by
  cases p with
  | NULL => simp [parser_dag.id?] at h
  | node id op val l r =>
      simp only [parser_dag.id?, Option.some.injEq] at h
      simp [parser_dag.postorderIds, h]

/-- Running the output of `reflect` for an arithmetic tree with distinct ids,
in an environment that defines none of its slots: every slot of the tree gets
defined, no other slot changes, and the root's slot holds the value of the
expression. -/
theorem execAll_reflect (A : DoubleOps D) (dag : parser_dag D)
    (hkind : dag.arithOnly = true) (hids : dag.postorderIds.Nodup)
    (hlit : ∀ v ∈ dag.literals, A.readLit (A.printF v) = v)
    (σ : Env D) (hfree : ∀ i ∈ dag.postorderIds, σ i = none) :
    (reflect dag).2 = none ∧
    ∃ σ', execAll A σ (reflect dag).1 = .ok σ' ∧
      (∀ i, i ∉ dag.postorderIds → σ' i = σ i) ∧
      (∀ root, dag.id? = some root →
        ∃ v, directValue A dag = some v ∧ σ' root = some v) := by
  induction dag generalizing σ with
  | NULL => exact ⟨rfl, σ, rfl, fun _ _ => rfl, fun _ h => by simp [parser_dag.id?] at h⟩
  | node id op val l r ihl ihr =>
      simp only [parser_dag.postorderIds] at hids hfree
      have hnd := List.nodup_append.mp hids
      have hndlr := List.nodup_append.mp hnd.1
      have hidl : id ∉ l.postorderIds := fun h =>
        hnd.2.2 (List.mem_append_left _ h) (List.mem_singleton_self id)
      have hidr : id ∉ r.postorderIds := fun h =>
        hnd.2.2 (List.mem_append_right _ h) (List.mem_singleton_self id)
      have hk := hkind
      simp only [parser_dag.arithOnly, Bool.and_eq_true] at hk
      have hlitl : ∀ v ∈ l.literals, A.readLit (A.printF v) = v := fun v hv =>
        hlit v (by simp [parser_dag.literals, hv])
      have hlitr : ∀ v ∈ r.literals, A.readLit (A.printF v) = v := fun v hv =>
        hlit v (by simp [parser_dag.literals, hv])
      obtain ⟨hl2, σ1, hσ1, hframe1, hroot1⟩ := ihl hk.1.1 hndlr.1 hlitl σ
        (fun i hi => hfree i (by simp [hi]))
      have hfree1 : ∀ i ∈ r.postorderIds, σ1 i = none := fun i hi => by
        rw [hframe1 i (fun hil => hndlr.2.2 hil hi)]
        exact hfree i (by simp [hi])
      obtain ⟨hr2, σ2, hσ2, hframe2, hroot2⟩ := ihr hk.1.2 hndlr.2.1 hlitr σ1 hfree1
      have hfree2 : σ2 id = none := by
        rw [hframe2 id hidr, hframe1 id hidl]
        exact hfree id (by simp)
      have hpre : execAll A σ ((reflect l).1 ++ (reflect r).1) = .ok σ2 := by
        rw [execAll_append, hσ1]
        exact hσ2
      -- the value of a child's slot after both subtrees have run
      have hleft : ∀ i, l.id? = some i → ∃ v, directValue A l = some v ∧ σ2 i = some v := by
        intro i hi
        obtain ⟨v, hv, hs⟩ := hroot1 i hi
        refine ⟨v, hv, ?_⟩
        rw [hframe2 i (fun hir => hndlr.2.2 (id?_mem_postorderIds hi) hir)]
        exact hs
      have hfinish : ∀ (s : Stmt D) (v : D), emitNode id op val l r = .ok s → s.target = id →
          s.rhs A σ2 = .ok v → directValue A (.node id op val l r) = some v →
          (reflect (.node id op val l r)).2 = none ∧
          ∃ σ', execAll A σ (reflect (.node id op val l r)).1 = .ok σ' ∧
            (∀ i, i ∉ l.postorderIds ++ r.postorderIds ++ [id] → σ' i = σ i) ∧
            (∀ root, (parser_dag.node id op val l r).id? = some root →
              ∃ v, directValue A (.node id op val l r) = some v ∧ σ' root = some v) := by
        intro s v hs ht hrhs hdv
        rw [reflect_node_of_returns id op val l r hl2 hr2, hs]
        refine ⟨rfl, Function.update σ2 id (some v), ?_, ?_, ?_⟩
        · rw [execAll_append, hpre]
          simp only [Except.bind, execAll_singleton]
          rw [exec_define A σ2 s v hrhs (by rw [ht]; exact hfree2), ht]
        · intro i hi
          simp only [List.mem_append, List.mem_singleton, not_or] at hi
          rw [Function.update_noteq hi.2, hframe2 i hi.1.2, hframe1 i hi.1.1]
        · intro root hroot
          simp only [parser_dag.id?, Option.some.injEq] at hroot
          subst hroot
          exact ⟨v, hdv, by simp⟩
      cases op with
      | PARSER_DAG_VAL =>
          refine hfinish (.val id val) val rfl rfl ?_ rfl
          simp only [Stmt.rhs]
          rw [hlit val (by simp [parser_dag.literals])]
      | PARSER_DAG_ADD =>
          simp only [Bool.and_eq_true, Bool.not_eq_true'] at hk
          obtain ⟨li, hli⟩ := id?_of_not_isNull hk.2.1
          obtain ⟨ri, hri⟩ := id?_of_not_isNull hk.2.2
          obtain ⟨vl, hvl, hsl⟩ := hleft li hli
          obtain ⟨vr, hvr, hsr⟩ := hroot2 ri hri
          refine hfinish (.add id li ri) (A.add vl vr) (by simp [emitNode, hli, hri]) rfl ?_ ?_
          · simp [Stmt.rhs, Env.read, hsl, hsr, bind, Except.bind]
          · simp [directValue, hvl, hvr]
      | PARSER_DAG_SUB =>
          simp only [Bool.and_eq_true, Bool.not_eq_true'] at hk
          obtain ⟨li, hli⟩ := id?_of_not_isNull hk.2.1
          obtain ⟨ri, hri⟩ := id?_of_not_isNull hk.2.2
          obtain ⟨vl, hvl, hsl⟩ := hleft li hli
          obtain ⟨vr, hvr, hsr⟩ := hroot2 ri hri
          refine hfinish (.sub id li ri) (A.sub vl vr) (by simp [emitNode, hli, hri]) rfl ?_ ?_
          · simp [Stmt.rhs, Env.read, hsl, hsr, bind, Except.bind]
          · simp [directValue, hvl, hvr]
      | PARSER_DAG_MUL =>
          simp only [Bool.and_eq_true, Bool.not_eq_true'] at hk
          obtain ⟨li, hli⟩ := id?_of_not_isNull hk.2.1
          obtain ⟨ri, hri⟩ := id?_of_not_isNull hk.2.2
          obtain ⟨vl, hvl, hsl⟩ := hleft li hli
          obtain ⟨vr, hvr, hsr⟩ := hroot2 ri hri
          refine hfinish (.mul id li ri) (A.mul vl vr) (by simp [emitNode, hli, hri]) rfl ?_ ?_
          · simp [Stmt.rhs, Env.read, hsl, hsr, bind, Except.bind]
          · simp [directValue, hvl, hvr]
      | PARSER_DAG_NEG => simp at hk
      | PARSER_DAG_DIV => simp at hk
      | unknown t => simp at hk

/-! ## The whole generated program -/

/-- The body `generate` writes splits into the output of `reflect` and the two
closing lines. -/
theorem splitStmts_body (o : List (Stmt D)) (id : Nat) :
    splitStmts (o.map Line.stmt ++ [Line.ret id, Line.closeBrace]) =
      (o, [Line.ret id, Line.closeBrace]) := by
  induction o with
  | nil => rfl
  | cons s rest ih => simp [splitStmts, ih]

/-- The generated program of an arithmetic tree with distinct ids, all of whose
constants survive the `%f` conversion, returns the callback applied to the
value of the expression. -/
theorem generate_correct (A : DoubleOps D) (callAt : Nat → D → D) (addr : Nat)
    (dag : parser_dag D) (hroot : dag.isNull = false)
    (hkind : dag.arithOnly = true) (hids : dag.postorderIds.Nodup)
    (hlit : ∀ v ∈ dag.literals, A.readLit (A.printF v) = v) :
    (generate dag addr).2 = none ∧
    ∃ v, directValue A dag = some v ∧
      runProgram A callAt (generate dag addr).1 = .ok (callAt addr v) := by
  obtain ⟨root, hid⟩ := id?_of_not_isNull hroot
  obtain ⟨hret, σ', hrun, -, hval⟩ :=
    execAll_reflect A dag hkind hids hlit (fun _ => none) (fun _ _ => rfl)
  obtain ⟨v, hv, hslot⟩ := hval root hid
  have hgen : generate dag addr =
      ([Line.declPtr, Line.openEvaluate, Line.assignPtr addr] ++ (reflect dag).1.map Line.stmt
        ++ [Line.ret root, Line.closeBrace], none) := by
    rcases hr : reflect dag with ⟨o, h⟩
    rw [hr] at hret
    simp only at hret
    subst hret
    simp [generate, hr, hid]
  refine ⟨by rw [hgen], v, hv, ?_⟩
  rw [hgen]
  simp only [List.cons_append, List.nil_append, runProgram, splitStmts_body, hrun, bind,
    Except.bind, Env.read, hslot]

/-! ## `jitc_close` -/

/-- On a handle that is not `NULL`, `jitc_close` returns. -/
theorem jitc_close_returns (c : LoaderCalls) (j : jitc) : (jitc_close c (some j)).2 = none := by
  simp only [jitc_close]
  split_ifs <;> rfl

end Lemmas

/-! ## The scenarios, evaluated with exact arithmetic -/

/-- An integer rounds to itself. -/
theorem roundHalfEven_intCast (k : ℤ) : roundHalfEven (k : ℚ) = k := by
  simp [roundHalfEven]

/-- The decimal that `%f` writes for a non-negative multiple of `10^-6` denotes
that number. -/
theorem printF_value_nat (k : ℕ) :
    (printF ((k : ℚ) / 10 ^ 6)).value = (k : ℚ) / 10 ^ 6 := by
  have hnn : ¬ ((k : ℚ) / 10 ^ 6 < 0) := not_lt.mpr (by positivity)
  have hmul : (k : ℚ) / 10 ^ 6 * 10 ^ 6 = ((k : ℤ) : ℚ) := by
    field_simp
  have hdm : ((k / 10 ^ 6 : ℕ) : ℚ) * 10 ^ 6 + ((k % 10 ^ 6 : ℕ) : ℚ) = (k : ℚ) := by
    have := Nat.div_add_mod k (10 ^ 6)
    have h2 : ((10 ^ 6 * (k / 10 ^ 6) + k % 10 ^ 6 : ℕ) : ℚ) = (k : ℚ) := by rw [this]
    push_cast at h2
    linarith
  simp only [printF, hnn, if_false, hmul, roundHalfEven_intCast, Int.toNat_ofNat, FLit.value,
    decide_False, Bool.false_eq_true]
  field_simp
  linarith

/-- The same for a negative multiple of `10^-6`. -/
theorem printF_value_neg_nat (k : ℕ) (hk : 0 < k) :
    (printF (-((k : ℚ) / 10 ^ 6))).value = -((k : ℚ) / 10 ^ 6) := by
  have hneg : -((k : ℚ) / 10 ^ 6) < 0 := by
    have : (0 : ℚ) < (k : ℚ) / 10 ^ 6 := by positivity
    linarith
  have hmul : (k : ℚ) / 10 ^ 6 * 10 ^ 6 = ((k : ℤ) : ℚ) := by
    field_simp
  have hdm : ((k / 10 ^ 6 : ℕ) : ℚ) * 10 ^ 6 + ((k % 10 ^ 6 : ℕ) : ℚ) = (k : ℚ) := by
    have := Nat.div_add_mod k (10 ^ 6)
    have h2 : ((10 ^ 6 * (k / 10 ^ 6) + k % 10 ^ 6 : ℕ) : ℚ) = (k : ℚ) := by rw [this]
    push_cast at h2
    linarith
  simp only [printF, hneg, if_true, neg_neg, hmul, roundHalfEven_intCast, Int.toNat_ofNat,
    FLit.value, decide_True]
  field_simp
  linarith

/-- With exact arithmetic, a constant that is a whole number of millionths
survives being written with `%f` and read back. -/
theorem exactOps_roundtrip (x : ℚ) (n : ℤ) (h : x * 10 ^ 6 = n) :
    exactOps.readLit (exactOps.printF x) = x := by
  have hx : x = (n : ℚ) / 10 ^ 6 := by
    rw [← h]; field_simp
  show (printF x).value = x
  rcases le_or_lt 0 n with hn | hn
  · obtain ⟨k, rfl⟩ := Int.eq_ofNat_of_zero_le hn
    rw [hx]
    have := printF_value_nat k
    simpa using this
  · obtain ⟨k, hk⟩ := Int.exists_eq_neg_ofNat (le_of_lt hn)
    have hkpos : 0 < k := by omega
    rw [hx, hk]
    have := printF_value_neg_nat k hkpos
    simpa [neg_div] using this

/-- With exact arithmetic, the generated program of an arithmetic tree with
distinct ids whose constants are whole numbers of millionths returns the
callback applied to the value of the expression. -/
theorem generate_correct_exact (callAt : Nat → ℚ → ℚ) (addr : Nat) (dag : parser_dag ℚ)
    (hroot : dag.isNull = false) (hkind : dag.arithOnly = true)
    (hids : dag.postorderIds.Nodup)
    (hmicro : ∀ v ∈ dag.literals, ∃ n : ℤ, v * 10 ^ 6 = n) :
    ∃ v, directValue exactOps dag = some v ∧
      runProgram exactOps callAt (generate dag addr).1 = .ok (callAt addr v) :=
  (generate_correct exactOps callAt addr dag hroot hkind hids fun v hv =>
    (hmicro v hv).elim fun n hn => exactOps_roundtrip v n hn).2

/-- Scenario A: the program of `2+3*4` returns the callback applied to 14. -/
theorem scenarioA (callAt : Nat → ℚ → ℚ) (addr : Nat) :
    runProgram exactOps callAt (generate dagScenarioA addr).1 = .ok (callAt addr 14) := by
  have hmicro : ∀ v ∈ dagScenarioA.literals, ∃ n : ℤ, v * 10 ^ 6 = n := by
    intro v hv
    simp [dagScenarioA, leaf, parser_dag.literals] at hv
    rcases hv with rfl | rfl | rfl
    · exact ⟨2000000, by norm_num⟩
    · exact ⟨3000000, by norm_num⟩
    · exact ⟨4000000, by norm_num⟩
  obtain ⟨v, hv, hrun⟩ := generate_correct_exact callAt addr dagScenarioA rfl rfl
    (by decide) hmicro
  have h14 : directValue exactOps dagScenarioA = some 14 := by
    norm_num [directValue, dagScenarioA, leaf, exactOps]
  rw [h14] at hv
  rw [hrun, ← Option.some.inj hv]

/-- Scenario B: the program of `1/0` returns the callback applied to 0. -/
theorem scenarioB (callAt : Nat → ℚ → ℚ) (addr : Nat) :
    runProgram exactOps callAt (generate dagScenarioB addr).1 = .ok (callAt addr 0) := by
  norm_num [runProgram, generate, reflect, dagScenarioB, leaf, emitNode, parser_dag.id?,
    splitStmts, execAll, exec, Stmt.rhs, Stmt.target, Env.read, Env.define, exactOps, printF,
    roundHalfEven, FLit.value, bind, Except.bind, Function.update, Int.toNat]

/-- The text `generate` writes for `1/0` when the callback is at address 4096. -/
theorem scenarioB_text :
    (generate dagScenarioB 4096).1.map (Line.text exactOps) =
      ["double (*sigmoidPtrLocalCopy)(double);\n",
       "double evaluate(void) \x7b\n",
       "sigmoidPtrLocalCopy = (double (*)(double))4096;\n",
       "double t0 = 1.000000;\n",
       "double t1 = 0.000000;\n",
       "double t2 = t1 ? (t0 / t1) : 0.0;\n",
       "return sigmoidPtrLocalCopy(t2);\n",
       "\x7d\n"] := by
  have h1 : printF 1 = ⟨false, 1, 0⟩ := by norm_num [printF, roundHalfEven, Int.toNat]
  have h0 : printF 0 = ⟨false, 0, 0⟩ := by norm_num [printF, roundHalfEven, Int.toNat]
  have hg : (generate dagScenarioB 4096).1 =
      [.declPtr, .openEvaluate, .assignPtr 4096, .stmt (.val 0 1), .stmt (.val 1 0),
        .stmt (.div 2 1 0 1), .ret 2, .closeBrace] := rfl
  rw [hg]
  simp only [List.map, Line.text, Stmt.text, exactOps, h1, h0]
  decide

/-- The program of `0.0000001*10000000` returns the callback applied to 0. -/
theorem tinyTimes (callAt : Nat → ℚ → ℚ) (addr : Nat) :
    runProgram exactOps callAt (generate dagTinyTimes addr).1 = .ok (callAt addr 0) := by
  norm_num [runProgram, generate, reflect, dagTinyTimes, leaf, emitNode, parser_dag.id?,
    splitStmts, execAll, exec, Stmt.rhs, Stmt.target, Env.read, Env.define, exactOps, printF,
    roundHalfEven, FLit.value, bind, Except.bind, Function.update, Int.toNat, tenMillionth]

/-- The expression `0.0000001*10000000` evaluated directly is above 0.999. -/
theorem tinyTimes_direct :
    directValue exactOps dagTinyTimes = some (tenMillionth * 10000000) ∧
    (999 : ℚ) / 1000 < tenMillionth * 10000000 := by
  constructor
  · simp [directValue, dagTinyTimes, leaf, exactOps]
  · norm_num [tenMillionth]

/-- The run in which every stage succeeds: the module is opened, the entry
function is called, and the handle is closed once. -/
theorem main_worldOk :
    main worldOk =
      ([.parser_open, .fopen, .generate false, .parser_close, .fclose, .jitc_compile,
        .file_delete "out.c", .jitc_open (some (jitc.mk 4096)), .jitc_lookup, .invoke,
        .file_delete "out.so", .jitc_close (some (jitc.mk 4096))], .returned 0) := by
  decide

/-! # The claims -/

/-- C1 (the code falls short of the claim): the DAG of `0.0000001*10000000` is a
tree of VALUE and MULTIPLY nodes with distinct ids, and `generate` returns on
it; yet the emitted program, run with the identity callback, yields `0`,
while the expression evaluated directly is above `0.999`.  The `%f`
conversion wrote the first constant as `0.000000`. -/
theorem generate_small_constant_diverges :
    dagTinyTimes.arithOnly = true ∧ dagTinyTimes.postorderIds.Nodup ∧
    (generate dagTinyTimes 4096).2 = none ∧
    runProgram exactOps (fun _ x => x) (generate dagTinyTimes 4096).1 = .ok 0 ∧
    directValue exactOps dagTinyTimes = some (tenMillionth * 10000000) ∧
    (999 : ℚ) / 1000 < tenMillionth * 10000000 :=
  ⟨rfl, by decide, rfl, tinyTimes (fun _ x => x) 4096, tinyTimes_direct.1, tinyTimes_direct.2⟩

/-- C2: for a DIVIDE node whose two children exist and are written out, `reflect`
appends the statement `t<id> = t<right> ? (t<left> / t<right>) : 0.0`.  Run
where both child slots are defined, it sets the node's slot to `0.0` when the
right slot is zero (whatever the left slot holds) and to left / right
otherwise; in no environment does it divide by a zero divisor; and the
program of `1/0` yields the callback applied to `0.0`. -/
theorem reflect_divide_protected {D : Type} (A : DoubleOps D) (id : Nat) (val : D)
    (l r : parser_dag D) (lid rid : Nat)
    (hl : l.id? = some lid) (hr : r.id? = some rid)
    (hlret : (reflect l).2 = none) (hrret : (reflect r).2 = none) :
    reflect (.node id PARSER_DAG_DIV val l r) =
      ((reflect l).1 ++ (reflect r).1 ++ [Stmt.div id rid lid rid], none) ∧
    (∀ (σ : Env D) (a b : D), σ lid = some a → σ rid = some b → σ id = none →
      exec A σ (Stmt.div id rid lid rid) =
        .ok (Function.update σ id (some (if A.nonzero b then A.div a b else A.zero)))) ∧
    (∀ σ : Env D, exec A σ (Stmt.div id rid lid rid) ≠ .error .zeroDivisor) ∧
    (∀ (callAt : Nat → ℚ → ℚ) (addr : Nat),
      runProgram exactOps callAt (generate dagScenarioB addr).1 = .ok (callAt addr 0)) := by
  refine ⟨?_, ?_, ?_, scenarioB⟩
  · rw [reflect_node_of_returns id PARSER_DAG_DIV val l r hlret hrret]
    simp [emitNode, hl, hr]
  · intro σ a b ha hb hfree
    by_cases hnz : A.nonzero b = true
    · exact exec_define A σ (Stmt.div id rid lid rid) _
        (by simp [Stmt.rhs, Env.read, ha, hb, hnz, bind, Except.bind]) hfree
    · exact exec_define A σ (Stmt.div id rid lid rid) _
        (by simp [Stmt.rhs, Env.read, hb, hnz, bind, Except.bind]) hfree
  · intro σ
    simp only [exec, Stmt.rhs, Stmt.target, Env.read, Env.define, bind, Except.bind]
    cases hb : σ rid with
    | none => simp
    | some b =>
        by_cases hnz : A.nonzero b = true
        · cases ha : σ lid with
          | none => simp [hnz]
          | some a =>
              cases hid : σ id <;> simp [hnz]
        · cases hid : σ id <;> simp [hnz]

/-- C2 at the DAG of `1/0`, with exact arithmetic. -/
theorem reflect_divide_protected_witness :
    (leaf 0 (1 : ℚ)).id? = some 0 ∧ (leaf 1 (0 : ℚ)).id? = some 1 ∧
    (reflect (leaf 0 (1 : ℚ))).2 = none ∧ (reflect (leaf 1 (0 : ℚ))).2 = none ∧
    (reflect (.node 2 PARSER_DAG_DIV 0 (leaf 0 (1 : ℚ)) (leaf 1 0)) =
      ((reflect (leaf 0 (1 : ℚ))).1 ++ (reflect (leaf 1 (0 : ℚ))).1 ++ [Stmt.div 2 1 0 1], none) ∧
    (∀ (σ : Env ℚ) (a b : ℚ), σ 0 = some a → σ 1 = some b → σ 2 = none →
      exec exactOps σ (Stmt.div 2 1 0 1) =
        .ok (Function.update σ 2
          (some (if exactOps.nonzero b then exactOps.div a b else exactOps.zero)))) ∧
    (∀ σ : Env ℚ, exec exactOps σ (Stmt.div 2 1 0 1) ≠ .error .zeroDivisor) ∧
    (∀ (callAt : Nat → ℚ → ℚ) (addr : Nat),
      runProgram exactOps callAt (generate dagScenarioB addr).1 = .ok (callAt addr 0))) :=
  ⟨rfl, rfl, rfl, rfl,
    reflect_divide_protected exactOps 2 0 (leaf 0 1) (leaf 1 0) 0 1 rfl rfl rfl rfl⟩

/-- C3: in a process where `fork` did not return 0 (the parent, or a failed
`fork`), `jitc_compile` returns, and the value is 0 exactly when the child was
created, was waited for, and exited normally with code 0; every other value
it returns is -1. -/
theorem jitc_compile_parent (p : ProcessCalls) (hparent : p.fork ≠ 0) :
    ∃ v : Int, jitc_compile p = .returned v ∧
      (v = 0 ↔ (0 < p.fork ∧ 0 ≤ p.waitpid ∧ p.status = .exited 0)) ∧
      (v ≠ 0 → v = -1) := by
  unfold jitc_compile
  by_cases h1 : p.fork < 0
  · refine ⟨-1, by simp [h1], ?_, fun _ => rfl⟩
    constructor
    · intro h; omega
    · rintro ⟨h, -, -⟩; omega
  · have hpos : 0 < p.fork := by omega
    by_cases h2 : p.waitpid < 0
    · refine ⟨-1, by simp [h1, hparent, h2], ?_, fun _ => rfl⟩
      constructor
      · intro h; omega
      · rintro ⟨-, h, -⟩; omega
    · cases hs : p.status with
      | exited code =>
          by_cases hc : code = 0
          · subst hc
            refine ⟨0, by simp [h1, hparent, h2, hs, WIFEXITED, WEXITSTATUS], ?_,
              fun h => absurd rfl h⟩
            simp [hpos]; omega
          · refine ⟨-1, by simp [h1, hparent, h2, hs, WIFEXITED, WEXITSTATUS, hc], ?_,
              fun _ => rfl⟩
            simp [hc]
      | signaled sig =>
          refine ⟨-1, by simp [h1, hparent, h2, hs, WIFEXITED, WEXITSTATUS], ?_, fun _ => rfl⟩
          simp

/-- C3 in the parent of a child that exited with code 0. -/
theorem jitc_compile_parent_witness :
    callsChildOk.fork ≠ 0 ∧
    ∃ v : Int, jitc_compile callsChildOk = .returned v ∧
      (v = 0 ↔ (0 < callsChildOk.fork ∧ 0 ≤ callsChildOk.waitpid ∧
        callsChildOk.status = .exited 0)) ∧
      (v ≠ 0 → v = -1) :=
  ⟨by decide, jitc_compile_parent callsChildOk (by decide)⟩

/-- C4: on a handle that is not `NULL`, `jitc_lookup` returns; the value is 0
exactly when `dlsym` reports the symbol absent (returns `NULL`), and otherwise
it is the address `dlsym` returned, unchanged as a 64-bit pattern. -/
theorem jitc_lookup_address (c : LoaderCalls) (j : jitc) (symbol : String)
    (hptr : c.dlsym j.outLibHandle symbol < 2 ^ 64) :
    ∃ r : Int, jitc_lookup c (some j) symbol = .ok r ∧
      (r = 0 ↔ c.dlsym j.outLibHandle symbol = 0) ∧
      r % 2 ^ 64 = (c.dlsym j.outLibHandle symbol : Int) := by
  unfold jitc_lookup
  by_cases h0 : c.dlsym j.outLibHandle symbol = 0
  · exact ⟨0, by simp [h0], by simp [h0], by simp [h0]⟩
  · refine ⟨toLong (c.dlsym j.outLibHandle symbol), by simp [h0], ?_, ?_⟩
    · unfold toLong
      rw [Nat.mod_eq_of_lt hptr]
      split <;> omega
    · unfold toLong
      rw [Nat.mod_eq_of_lt hptr]
      split <;> omega

/-- C4 for a loader that resolves `evaluate` to the address 8192. -/
theorem jitc_lookup_address_witness :
    loaderOk.dlsym (jitc.mk 4096).outLibHandle "evaluate" < 2 ^ 64 ∧
    ∃ r : Int, jitc_lookup loaderOk (some (jitc.mk 4096)) "evaluate" = .ok r ∧
      (r = 0 ↔ loaderOk.dlsym (jitc.mk 4096).outLibHandle "evaluate" = 0) ∧
      r % 2 ^ 64 = (loaderOk.dlsym (jitc.mk 4096).outLibHandle "evaluate" : Int) :=
  ⟨by decide, jitc_lookup_address loaderOk (jitc.mk 4096) "evaluate" (by decide)⟩

/-- C5 (the code falls short of the claim): when the parser hands out a `NULL`
root, `main` calls `generate` on it all the same, and the run ends there in
the read of `dag->id`. -/
theorem main_null_root_reaches_generate :
    worldNullRoot.parser_dag.isNull = true ∧
    main worldNullRoot = ([.parser_open, .fopen, .generate true], .halted .nullDeref) ∧
    Event.generate true ∈ (main worldNullRoot).1 ∧
    (generate worldNullRoot.parser_dag worldNullRoot.sigmoidPtr).2 = some .nullDeref := by
  decide

/-- C6 (the code falls short of the claim): `jitc_close(NULL)` does not
complete; it ends in the read of `jitc->outLibHandle`, before any call. -/
theorem jitc_close_null_faults (c : LoaderCalls) :
    jitc_close c none = ([], some Halt.nullDeref) :=
  rfl

/-- The discipline is not met by a `jitc_close(NULL)` that no failed `jitc_open`
precedes: not as the first call, and not after the handle has been closed;
nor by a second close of the same handle, nor by a close of another handle,
nor by a second `jitc_open` while a handle is Loaded. -/
theorem closesLoaded_rejects :
    closesLoaded true .idle
      [.jitc_open (some (jitc.mk 4096)), .jitc_open (some (jitc.mk 4096)),
        .jitc_close (some (jitc.mk 4096))] = false ∧
    closesLoaded true .idle [.jitc_close none] = false ∧
    closesLoaded true .idle
      [.jitc_open (some (jitc.mk 4096)), .jitc_close (some (jitc.mk 4096)),
        .jitc_close none] = false ∧
    closesLoaded true .idle
      [.jitc_open (some (jitc.mk 4096)), .jitc_close (some (jitc.mk 4096)),
        .jitc_close (some (jitc.mk 4096))] = false ∧
    closesLoaded true .idle
      [.jitc_open (some (jitc.mk 4096)), .jitc_close none] = false ∧
    closesLoaded true .idle
      [.jitc_open (some (jitc.mk 4096)), .jitc_close (some (jitc.mk 8192))] = false ∧
    closesLoaded true .idle [.jitc_open none, .jitc_close none] = true ∧
    closesLoaded false .idle [.jitc_open none, .jitc_close none] = false ∧
    closesLoaded false .idle
      [.jitc_open (some (jitc.mk 4096)), .jitc_close (some (jitc.mk 4096))] = true := by
  decide

/-- C7 (as stated, refuted): in the run where every stage up to `jitc_open`
succeeds and `jitc_open` fails, `main` calls `jitc_close` with the `NULL` it
got, so a `jitc_close` is made while no handle is Loaded. -/
theorem main_closes_after_failed_open :
    Event.jitc_open none ∈ (main worldOpenFails).1 ∧
    Event.jitc_close none ∈ (main worldOpenFails).1 ∧
    closesLoaded false .idle (main worldOpenFails).1 = false := by
  decide

/-- C7 (amended): in every run of `main`, each `jitc_close` is called on the
value the preceding `jitc_open` returned and that has not been closed yet:
the handle then Loaded, or `NULL` when that `jitc_open` failed; and a handle
that `jitc_open` produced is closed exactly once. -/
theorem main_close_discipline {D : Type} (w : World D) :
    closesLoaded true .idle (main w).1 = true ∧
    ∀ h : jitc, Event.jitc_open (some h) ∈ (main w).1 →
      (main w).1.count (Event.jitc_close (some h)) = 1 := by
  have hclose := jitc_close_returns w.loader
  unfold main mainLoadFailed
  generalize (generate w.parser_dag w.sigmoidPtr).2 = g
  generalize jitc_compile w.proc = cmp
  generalize jitc_open w.loader "out.so" = j
  by_cases h1 : w.argc = 2 <;> by_cases h2 : w.parser_open = true <;>
    by_cases h3 : w.fopen = true <;> simp [h1, h2, h3, closesLoaded, loaderStep]
  rcases g with _ | gh <;> simp [closesLoaded, loaderStep]
  rcases cmp with r | _ <;> simp [closesLoaded, loaderStep]
  by_cases h4 : r = 0 <;> simp [h4, closesLoaded, loaderStep]
  rcases j with _ | j
  · simp [jitc_close, closesLoaded, loaderStep]
  · by_cases h5 : w.loader.dlsym j.outLibHandle "evaluate" = 0
    · simp [jitc_lookup, h5, hclose, closesLoaded, loaderStep]
    · by_cases h6 : toLong (w.loader.dlsym j.outLibHandle "evaluate") = 0 <;>
        simp [jitc_lookup, h5, h6, hclose, closesLoaded, loaderStep]

/-- C8 (as stated, refuted): in the DAG of `1 + ?`, whose right operand has an
unknown operator, `reflect` ends in `EXIT` after it has written the definition
of the left operand's slot. -/
theorem reflect_unknown_after_output :
    dagUnknown.hasUnknown = true ∧
    reflect dagUnknown = ([Stmt.val 0 1], some Halt.exitSoftware) ∧
    (reflect dagUnknown).1 ≠ [] :=
  ⟨rfl, rfl, by rw [show reflect dagUnknown = ([Stmt.val 0 1], some Halt.exitSoftware) from rfl]; simp⟩

/-- C8 (amended): a reachable unknown operator keeps `reflect` from returning.
When moreover every node has the children its operator reads, the run ends in
`EXIT`, and what has been written by then defines exactly the slots of the
nodes that precede the first unknown operator in post-order.  Without an
unknown operator `reflect` never ends in `EXIT`. -/
theorem reflect_unknown_aborts {D : Type} (dag : parser_dag D) :
    (dag.hasUnknown = true → (reflect dag).2 ≠ none) ∧
    (dag.hasUnknown = true → dag.operandsPresent = true →
      (reflect dag).2 = some Halt.exitSoftware ∧
      (reflect dag).1.map Stmt.target =
        ((dag.postorderOps.takeWhile fun x => opKnown x.2).map Prod.fst)) ∧
    (dag.hasUnknown = false → (reflect dag).2 ≠ some Halt.exitSoftware) := by
  refine ⟨reflect_halts_of_hasUnknown dag, ?_, reflect_no_exit dag⟩
  intro hu hp
  have h := reflect_prefix dag hp
  rw [hu] at h
  exact h

/-- C9 (the code falls short of the claim): for the VALUE node holding the
double nearest to `0.0000001`, `reflect` writes `double t0 = 0.000000;`, a
constant that denotes `0`, not the node's value. -/
theorem reflect_value_text_inexact :
    reflect dagTiny = ([Stmt.val 0 tenMillionth], none) ∧
    (Stmt.val 0 tenMillionth).text exactOps = "double t0 = 0.000000;\n" ∧
    exactOps.readLit (exactOps.printF tenMillionth) = 0 ∧
    (0 : ℚ) < tenMillionth := by
  have h : printF tenMillionth = ⟨false, 0, 0⟩ := by
    norm_num [printF, roundHalfEven, Int.toNat, tenMillionth]
  refine ⟨rfl, ?_, ?_, by norm_num [tenMillionth]⟩
  · simp only [Stmt.text, exactOps, h]
    decide
  · simp only [exactOps, h]
    norm_num [FLit.value]

/-- C10: for every DAG, what `reflect` has written defines an initial segment of
the node ids in post-order, and `reflect` returns exactly when every reachable
operator is known and has its operands.  When it returns, the slots its
output defines, in order, are the node ids in post-order: at a node, the
output for the left subtree, then that for the right subtree, then the
definition of the node's own slot.  So there are as many statements as
nodes, the slot of id `i` is defined once per path from the root to a node
with that id (again and again for a node with several parents), and exactly
once when the ids are distinct. -/
theorem reflect_postorder_emission {D : Type} (dag : parser_dag D) :
    ((reflect dag).2 = none ↔ (dag.hasUnknown = false ∧ dag.operandsPresent = true)) ∧
    (reflect dag).1.map Stmt.target <+: dag.postorderIds ∧
    ((reflect dag).2 = none →
      (reflect dag).1.map Stmt.target = dag.postorderIds ∧
      (∀ id op val l r, dag = .node id op val l r →
        ∃ s : Stmt D, s.target = id ∧
          (reflect dag).1 = (reflect l).1 ++ (reflect r).1 ++ [s]) ∧
      (reflect dag).1.length = dag.size ∧
      (∀ i, ((reflect dag).1.map Stmt.target).count i = dag.paths i) ∧
      (dag.postorderIds.Nodup →
        ∀ i ∈ dag.postorderIds, ((reflect dag).1.map Stmt.target).count i = 1)) := by
  obtain ⟨hiff, hseg⟩ := reflect_segment dag
  refine ⟨hiff, hseg, fun hret => ?_⟩
  obtain ⟨hk, hp⟩ := hiff.mp hret
  have hids := (reflect_returns dag hk hp).2
  refine ⟨hids, ?_, ?_, ?_, ?_⟩
  · rintro id op val l r rfl
    have hk' := hk
    have hp' := hp
    simp only [parser_dag.hasUnknown, Bool.or_eq_false_iff, Bool.not_eq_false'] at hk'
    simp only [parser_dag.operandsPresent, Bool.and_eq_true] at hp'
    obtain ⟨s, hs, hst⟩ := emitNode_ok id op val l r hk'.1.1 hp
    refine ⟨s, hst, ?_⟩
    rw [reflect_node_of_returns id op val l r (reflect_returns l hk'.1.2 hp'.1.1).1
      (reflect_returns r hk'.2 hp'.1.2).1, hs]
  · rw [← length_postorderIds, ← hids, List.length_map]
  · intro i
    rw [hids, count_postorderIds]
  · intro hnd i hi
    rw [hids]
    exact List.count_eq_one_of_mem hnd hi

/-- C10 at a DAG whose node `0` has two parents: `reflect` returns, and the slot
`t0` is defined twice. -/
theorem reflect_postorder_emission_witness :
    (reflect dagShared).2 = none ∧
    (reflect dagShared).1.map Stmt.target = [0, 0, 1] ∧
    dagShared.paths 0 = 2 ∧
    ((reflect dagShared).1.map Stmt.target).count 0 = dagShared.paths 0 :=
  ⟨rfl, ((reflect_postorder_emission dagShared).2.2 rfl).1, rfl,
    ((reflect_postorder_emission dagShared).2.2 rfl).2.2.2.1 0⟩

end JitEval
